import Mathlib

/-!
Shallow embedding of the EstimateAI reconciliation engine (extraction
orchestrator, unit normalizer, comparison engine, price mapping engine)
together with theorems settling the specification claims.

Strings are modelled as Lean `String`/`List Char`; JavaScript numbers
reachable from `JSON.parse` are modelled as `Rat` (every JSON literal is a
decimal, and the only operations performed on them are order comparisons
and array indexing, where this model agrees with IEEE doubles for all
magnitudes relevant here).  JavaScript `undefined` and `null` are modelled
as `Option`/`Json.null` as noted at each definition.
-/

namespace EstimateAI

/-! ## JavaScript character and string primitives -/

/-- Digit character, JS regex `\d` (ASCII only, no `u` flag). -/
def isDigit (c : Char) : Bool :=
  '0' ≤ c && c ≤ '9'

/-- Word character, JS regex `\w`: `[A-Za-z0-9_]`. -/
def isWordChar (c : Char) : Bool :=
  isDigit c || ('a' ≤ c && c ≤ 'z') || ('A' ≤ c && c ≤ 'Z') || c = '_'

/-- Whitespace for JS regex `\s` and `String.prototype.trim` (the ASCII
whitespace characters plus NBSP; other rare Unicode space characters are
not modelled, none of the analysed code depends on them). -/
def isJsSpace (c : Char) : Bool :=
  c = ' ' || c.toNat = 9 || c.toNat = 10 || c.toNat = 11 || c.toNat = 12 ||
    c.toNat = 13 || c.toNat = 160

/-- Whitespace accepted between tokens by `JSON.parse`. -/
def isJsonWs (c : Char) : Bool :=
  c = ' ' || c.toNat = 9 || c.toNat = 10 || c.toNat = 13

/-- `String.prototype.toLowerCase` restricted to the characters the source
manipulates (ASCII letters and `Ø`, the diameter-style prefix letter). -/
def jsToLowerChar (c : Char) : Char :=
  if 'A' ≤ c && c ≤ 'Z' then Char.ofNat (c.toNat + 32)
  else if c = 'Ø' then 'ø'
  else c

def jsToLower (s : String) : String :=
  ⟨s.data.map jsToLowerChar⟩

/-- `String.prototype.trim`. -/
def jsTrim (s : String) : String :=
  ⟨((s.data.dropWhile isJsSpace).reverse.dropWhile isJsSpace).reverse⟩

/-- Case-insensitive character comparison as used by the `/i` regex flag
(canonicalisation through the lower-case map above). -/
def ciEq (a b : Char) : Bool :=
  jsToLowerChar a = jsToLowerChar b

/-- Case-insensitive literal-prefix test; returns the remainder on success. -/
def ciStrip : List Char → List Char → Option (List Char)
  | [], l => some l
  | _ :: _, [] => none
  | p :: ps, c :: cs => if ciEq p c then ciStrip ps cs else none

/-- Exact literal-prefix test on character lists. -/
def startsWithChars : List Char → List Char → Bool
  | [], _ => true
  | _ :: _, [] => false
  | p :: ps, c :: cs => p = c && startsWithChars ps cs

def hasSubAux (sub : List Char) : List Char → Bool
  | [] => sub.isEmpty
  | c :: cs => startsWithChars sub (c :: cs) || hasSubAux sub cs

/-- Substring containment, `String.prototype.includes`. -/
def jsIncludes (s sub : String) : Bool :=
  hasSubAux sub.data s.data

/-! ## JSON values -/

/-- A parsed JSON value (the result type of `JSON.parse`). -/
inductive Json where
  | null
  | bool (b : Bool)
  | num (q : Rat)
  | str (s : String)
  | arr (elems : List Json)
  | obj (fields : List (String × Json))

/-- Truthiness of a JSON value under JS boolean coercion (`||`, `if`).
`NaN` is unreachable from `JSON.parse` and is not modelled. -/
def jsTruthy : Json → Bool
  | .null => false
  | .bool b => b
  | .num q => q ≠ 0
  | .str s => s ≠ ""
  | .arr _ => true
  | .obj _ => true

/-- Property read `o[k]` on a JSON value known not to be `null`:
`none` models `undefined`.  Later duplicate keys win, as in `JSON.parse`.
Plain property names carried by this code base never collide with
built-ins on primitives or arrays, so every non-object receiver yields
`undefined`. -/
def Json.getProp? (j : Json) (k : String) : Option Json :=
  match j with
  | .obj fs => fs.foldl (fun acc p => if p.1 = k then some p.2 else acc) none
  | _ => none

def jsIsNull : Json → Bool
  | .null => true
  | _ => false

def Json.isArr : Json → Bool
  | .arr _ => true
  | _ => false

def Json.isStr (j : Json) (s : String) : Bool :=
  match j with
  | .str t => t = s
  | _ => false

/-- Nullish coalescing `a ?? b` over property reads, where `none` is
`undefined` and `some .null` is `null`. -/
def jsCoalesce (a b : Option Json) : Option Json :=
  match a with
  | none => b
  | some .null => b
  | some v => some v

/-! ## JSON.parse -/

def skipWs (l : List Char) : List Char :=
  l.dropWhile isJsonWs

def hexVal (c : Char) : Option Nat :=
  if isDigit c then some (c.toNat - 48)
  else if 'a' ≤ c && c ≤ 'f' then some (c.toNat - 87)
  else if 'A' ≤ c && c ≤ 'F' then some (c.toNat - 55)
  else none

/-- JSON string body (after the opening quote), with escapes. -/
def pStringAux : Nat → List Char → Option (List Char × List Char)
  | 0, _ => none
  | _, [] => none
  | fuel+1, c :: rest =>
    if c = '"' then some ([], rest)
    else if c = '\\' then
      match rest with
      | [] => none
      | e :: rest2 =>
        let dec : Option (Char × List Char) :=
          if e = '"' then some ('"', rest2)
          else if e = '\\' then some ('\\', rest2)
          else if e = '/' then some ('/', rest2)
          else if e = 'b' then some (Char.ofNat 8, rest2)
          else if e = 'f' then some (Char.ofNat 12, rest2)
          else if e = 'n' then some (Char.ofNat 10, rest2)
          else if e = 'r' then some (Char.ofNat 13, rest2)
          else if e = 't' then some (Char.ofNat 9, rest2)
          else if e = 'u' then
            match rest2 with
            | h1 :: h2 :: h3 :: h4 :: rest3 =>
              match hexVal h1, hexVal h2, hexVal h3, hexVal h4 with
              | some a, some b, some c2, some d =>
                some (Char.ofNat (((a * 16 + b) * 16 + c2) * 16 + d), rest3)
              | _, _, _, _ => none
            | _ => none
          else none
        match dec with
        | some (ch, r) => (pStringAux fuel r).map (fun p => (ch :: p.1, p.2))
        | none => none
    else if c.toNat < 32 then none
    else (pStringAux fuel rest).map (fun p => (c :: p.1, p.2))

def splitDigits (l : List Char) : List Char × List Char :=
  (l.takeWhile isDigit, l.dropWhile isDigit)

def digitsToNat (ds : List Char) : Nat :=
  ds.foldl (fun n c => n * 10 + (c.toNat - 48)) 0

/-- JSON number grammar: `-?(0|[1-9][0-9]*)(\.[0-9]+)?([eE][+-]?[0-9]+)?`. -/
def pNumber (l : List Char) : Option (Json × List Char) :=
  let (neg, l1) :=
    match l with
    | '-' :: r => (true, r)
    | _ => (false, l)
  let (intDs, l2) := splitDigits l1
  if intDs = [] then none
  else if intDs.length > 1 && intDs.headD 'x' = '0' then none
  else
    let fracStep : Option (List Char × List Char) :=
      match l2 with
      | '.' :: r =>
        let (f, r2) := splitDigits r
        if f = [] then none else some (f, r2)
      | _ => some ([], l2)
    match fracStep with
    | none => none
    | some (fracDs, l3) =>
      let expStep : Option (Int × List Char) :=
        match l3 with
        | c :: r =>
          if c = 'e' || c = 'E' then
            let signStep : Int × List Char :=
              match r with
              | '+' :: r2 => (1, r2)
              | '-' :: r2 => (-1, r2)
              | _ => (1, r)
            let (eds, r3) := splitDigits signStep.2
            if eds = [] then none
            else some (signStep.1 * (digitsToNat eds : Int), r3)
          else some (0, l3)
        | [] => some (0, l3)
      match expStep with
      | none => none
      | some (ex, l4) =>
        let mant : Int := (digitsToNat (intDs ++ fracDs) : Int)
        let mant : Int := if neg then -mant else mant
        let e10 : Int := ex - (fracDs.length : Int)
        let q : Rat :=
          if 0 ≤ e10 then mkRat (mant * ((10 ^ e10.toNat : Nat) : Int)) 1
          else mkRat mant (10 ^ (-e10).toNat)
        some (Json.num q, l4)

mutual

def pJson : Nat → List Char → Option (Json × List Char)
  | 0, _ => none
  | fuel+1, l =>
    match skipWs l with
    | 'n' :: 'u' :: 'l' :: 'l' :: r => some (.null, r)
    | 't' :: 'r' :: 'u' :: 'e' :: r => some (.bool true, r)
    | 'f' :: 'a' :: 'l' :: 's' :: 'e' :: r => some (.bool false, r)
    | '"' :: r => (pStringAux (fuel + 1) r).map (fun p => (.str ⟨p.1⟩, p.2))
    | '[' :: r =>
      (match skipWs r with
       | ']' :: r2 => some (.arr [], r2)
       | _ => (pElems fuel r).map (fun p => (.arr p.1, p.2)))
    | '{' :: r =>
      (match skipWs r with
       | '}' :: r2 => some (.obj [], r2)
       | _ => (pFields fuel r).map (fun p => (.obj p.1, p.2)))
    | l2 => pNumber l2

def pElems : Nat → List Char → Option (List Json × List Char)
  | 0, _ => none
  | fuel+1, l =>
    match pJson fuel l with
    | none => none
    | some (v, r) =>
      match skipWs r with
      | ',' :: r2 =>
        match pElems fuel r2 with
        | some (vs, r3) => some (v :: vs, r3)
        | none => none
      | ']' :: r2 => some ([v], r2)
      | _ => none

def pFields : Nat → List Char → Option (List (String × Json) × List Char)
  | 0, _ => none
  | fuel+1, l =>
    match skipWs l with
    | '"' :: r =>
      match pStringAux (fuel + 1) r with
      | none => none
      | some (k, r1) =>
        match skipWs r1 with
        | ':' :: r2 =>
          match pJson fuel r2 with
          | none => none
          | some (v, r3) =>
            match skipWs r3 with
            | ',' :: r4 => (pFields fuel r4).map (fun p => ((⟨k⟩, v) :: p.1, p.2))
            | '}' :: r4 => some ([(⟨k⟩, v)], r4)
            | _ => none
        | _ => none
    | _ => none

end

/-- `JSON.parse`: `some` on success, `none` models the thrown
`SyntaxError`.  Trailing non-whitespace is rejected, as in JS. -/
def jsonParse (s : String) : Option Json :=
  let cs := s.data
  match pJson (2 * cs.length + 4) cs with
  | some (v, rest) => if (skipWs rest).isEmpty then some v else none
  | none => none

/-- Leftmost match of the greedy regexes `/\{[\s\S]*\}/` and
`/\[[\s\S]*\]/`: from the first opening character to the last closing
character of the whole string, provided the latter comes after the
former. -/
def spanFirstToLast (openC closeC : Char) (s : String) : Option String :=
  let cs := s.data
  match cs.findIdx? (· = openC), cs.reverse.findIdx? (· = closeC) with
  | some i, some jr =>
    let j := cs.length - 1 - jr
    if i < j then some ⟨(cs.drop i).take (j - i + 1)⟩ else none
  | _, _ => none

def braceSpan (s : String) : Option String :=
  spanFirstToLast '{' '}' s

def bracketSpan (s : String) : Option String :=
  spanFirstToLast '[' ']' s

/-! ## Unit Normalizer (src/services/openai/priceMapper.ts)

The two inch regexes of `normalizeSize` are embedded as deterministic
matchers.  Greedy `\d+`/`\s*` need no backtracking here because the token
that follows each of them can never start with a digit or a space, so the
maximal run is the only candidate; the remaining nondeterminism
(alternations, the optional fraction part, the optional `ø|Ø|DN` prefix)
is tried in the regex engine's order. -/

/-- The apostrophe character (used by the `''` inch marker). -/
def apos : Char := Char.ofNat 39

/-- JS regex `\b` after a word character: next char absent or non-word. -/
def boundaryAfterWord : List Char → Bool
  | [] => true
  | c :: _ => !isWordChar c

/-- Leftmost match of `/(\d+)\s*mm/i`, returning capture group 1. -/
def mmTryAt (l : List Char) : Option (List Char) :=
  let (ds, r) := splitDigits l
  if ds = [] then none
  else
    match ciStrip ['m', 'm'] (r.dropWhile isJsSpace) with
    | some _ => some ds
    | none => none

def mmFind : List Char → Option (List Char)
  | [] => none
  | c :: cs =>
    match mmTryAt (c :: cs) with
    | some ds => some ds
    | none => mmFind cs

/-- Suffix `\s*(?:"|''|inch|in)\b` of the first inch pattern.  After `"` or
`''` the final character is a non-word character, so the word boundary
requires a word character to follow; after `inch`/`in` it requires the
next character to be absent or non-word. -/
def pat1Tail (r : List Char) : Bool :=
  let r2 := r.dropWhile isJsSpace
  match r2 with
  | [] => false
  | c :: rest =>
    (c = '"' && (match rest with | d :: _ => isWordChar d | [] => false))
    || (c = apos && (match rest with
         | d :: rest2 =>
           d = apos && (match rest2 with | e :: _ => isWordChar e | [] => false)
         | [] => false))
    || (match ciStrip ['i', 'n', 'c', 'h'] r2 with
        | some rest3 => boundaryAfterWord rest3
        | none => false)
    || (match ciStrip ['i', 'n'] r2 with
        | some rest3 => boundaryAfterWord rest3
        | none => false)

/-- Capture group `(\d+(?:[.-]\d+\/\d+)?|\d+\/\d+)` followed by
`pat1Tail`, with the regex engine's alternation order. -/
def pat1Group (l : List Char) : Option (List Char) :=
  let (ds, r1) := splitDigits l
  if ds = [] then none
  else
    let withInner : Option (List Char) :=
      match r1 with
      | sep :: r2 =>
        if sep = '.' || sep = '-' then
          let (ds2, r3) := splitDigits r2
          if ds2 = [] then none
          else
            match r3 with
            | '/' :: r4 =>
              let (ds3, r5) := splitDigits r4
              if ds3 = [] then none
              else if pat1Tail r5 then some (ds ++ [sep] ++ ds2 ++ ['/'] ++ ds3)
              else none
            | _ => none
        else none
      | [] => none
    match withInner with
    | some cap => some cap
    | none =>
      if pat1Tail r1 then some ds
      else
        match r1 with
        | '/' :: r2 =>
          let (ds2, r3) := splitDigits r2
          if ds2 = [] then none
          else if pat1Tail r3 then some (ds ++ ['/'] ++ ds2)
          else none
        | _ => none

/-- One attempt of `/(?:ø|Ø|DN)?(...)\s*(?:"|''|inch|in)\b/i` at a fixed
start position: the optional prefix is tried first (greedy `?`), then the
empty prefix. -/
def pat1TryAt (l : List Char) : Option (List Char) :=
  let withPre : Option (List Char) :=
    match l with
    | c :: rest =>
      if jsToLowerChar c = 'ø' then pat1Group rest
      else
        match ciStrip ['d', 'n'] (c :: rest) with
        | some rest2 => pat1Group rest2
        | none => none
    | [] => none
  match withPre with
  | some cap => some cap
  | none => pat1Group l

def pat1Find : List Char → Option (List Char)
  | [] => none
  | c :: cs =>
    match pat1TryAt (c :: cs) with
    | some cap => some cap
    | none => pat1Find cs

/-- One attempt of `/(?:ø|Ø|DN)(\d+(?:\.\d+)?)\b/i` at a fixed position. -/
def pat2TryAt (l : List Char) : Option (List Char) :=
  let afterPre : Option (List Char) :=
    match l with
    | c :: rest =>
      if jsToLowerChar c = 'ø' then some rest
      else
        match ciStrip ['d', 'n'] (c :: rest) with
        | some rest2 => some rest2
        | none => none
    | [] => none
  match afterPre with
  | none => none
  | some r =>
    let (ds, r1) := splitDigits r
    if ds = [] then none
    else
      let withInner : Option (List Char) :=
        match r1 with
        | '.' :: r2 =>
          let (ds2, r3) := splitDigits r2
          if ds2 = [] then none
          else if boundaryAfterWord r3 then some (ds ++ ['.'] ++ ds2)
          else none
        | _ => none
      match withInner with
      | some cap => some cap
      | none => if boundaryAfterWord r1 then some ds else none

def pat2Find : List Char → Option (List Char)
  | [] => none
  | c :: cs =>
    match pat2TryAt (c :: cs) with
    | some cap => some cap
    | none => pat2Find cs

/-- Anchored match `/^(\d+(?:\.\d+)?)\s*$/` (applied to the original,
untrimmed string). -/
def bareNumFind (s : String) : Option (List Char) :=
  let (ds, r1) := splitDigits s.data
  if ds = [] then none
  else
    let step : Option (List Char × List Char) :=
      match r1 with
      | '.' :: r2 =>
        let (ds2, r3) := splitDigits r2
        if ds2 = [] then none else some (ds ++ ['.'] ++ ds2, r3)
      | _ => some (ds, r1)
    match step with
    | none => none
    | some (cap, r3) => if (r3.dropWhile isJsSpace).isEmpty then some cap else none

/-- Nominal-pipe-size lookup table `INCH_TO_MM`. -/
def INCH_TO_MM : List (String × Nat) :=
  [("0.5", 15), ("1/2", 15), ("0.75", 20), ("3/4", 20), ("1", 25),
   ("1.25", 32), ("1-1/4", 32), ("1.5", 40), ("1-1/2", 40), ("2", 50),
   ("2.5", 65), ("2-1/2", 65), ("3", 80), ("4", 100), ("5", 125),
   ("6", 150), ("8", 200), ("10", 250), ("12", 300)]

/-- JS object key lookup `INCH_TO_MM[k]`. -/
def assocGet : List (String × Nat) → String → Option Nat
  | [], _ => none
  | (a, b) :: rest, k => if k = a then some b else assocGet rest k

def inchTableGet (k : String) : Option Nat :=
  assocGet INCH_TO_MM k

/-- `String.prototype.replace("-", ".")`: first occurrence only. -/
def replaceFirstDash : List Char → List Char
  | [] => []
  | c :: cs => if c = '-' then '.' :: cs else c :: replaceFirstDash cs

def inchLookup (cap : List Char) : Option Nat :=
  inchTableGet ⟨replaceFirstDash cap⟩

/-- The `for (const pattern of inchPatterns)` loop body: a pattern match
whose captured value misses the table falls through to the next pattern
(and ultimately past the loop). -/
def inchResolve (lower : List Char) : Option Nat :=
  let p2 : Option Nat :=
    match pat2Find lower with
    | some cap => inchLookup cap
    | none => none
  match pat1Find lower with
  | some cap =>
    match inchLookup cap with
    | some mm => some mm
    | none => p2
  | none => p2

/-- `normalizeSize` (priceMapper.ts lines 81-112).  `none` models the
`undefined` argument; the `!size` guard also returns `""` for the empty
string. -/
def normalizeSize (size : Option String) : String :=
  match size with
  | none => ""
  | some s =>
    if s = "" then ""
    else
      let lower := (jsTrim (jsToLower s)).data
      match mmFind lower with
      | some ds => (⟨ds⟩ : String) ++ "mm"
      | none =>
        match inchResolve lower with
        | some mm => toString mm ++ "mm"
        | none =>
          match bareNumFind s with
          | some cap =>
            match inchTableGet ⟨cap⟩ with
            | some mm => toString mm ++ "mm"
            | none => s
          | none => s

/-! ## ExtractedItem and categorizeItem -/

/-- `ExtractedItem` (backend `types/build`), with the fields constructed
by the extraction orchestrator's `toItemsArray`; every attribute is an
optional string (`none` = "not observed"). -/
structure ExtractedItem where
  section_code : Option String := none
  section_name : Option String := none
  item_no : Option String := none
  item_number : Option String := none
  item_type : Option String := none
  description : Option String := none
  capacity : Option String := none
  dimensions : Option String := none
  dimensions_reason : Option String := none
  size : Option String := none
  quantity : Option String := none
  finishes : Option String := none
  unit : Option String := none
  remarks : Option String := none
  unit_price : Option String := none
  total_price : Option String := none
  location : Option String := none
  unit_manhour : Option String := none
  total_manhour : Option String := none
  full_description : Option String := none
deriving DecidableEq

/-- `item.description ?? item.full_description ?? ""`. -/
def itemDesc (item : ExtractedItem) : String :=
  match item.description with
  | some d => d
  | none =>
    match item.full_description with
    | some d => d
    | none => ""

/-- Word-token containment test for `/\bbv\b/`-style regexes (token made
of word characters, boundary required on both sides). -/
def hasWordTokenAux (tok : List Char) : Bool → List Char → Bool
  | _, [] => false
  | prevWord, c :: cs =>
    (!prevWord && startsWithChars tok (c :: cs)
      && boundaryAfterWord ((c :: cs).drop tok.length))
    || hasWordTokenAux tok (isWordChar c) cs

def hasWordToken (s : String) (tok : String) : Bool :=
  hasWordTokenAux tok.data false s.data

/-- `categorizeItem` (priceMapper.ts lines 114-135). -/
def categorizeItem (item : ExtractedItem) : String :=
  let desc := jsToLower (itemDesc item)
  let itemType := jsToLower ((item.item_type).getD "")
  if jsIncludes desc "storage tank" || jsIncludes itemType "storage tank" then "STORAGE_TANK"
  else if jsIncludes desc "day tank" || jsIncludes itemType "day tank" then "DAY_TANK"
  else if jsIncludes desc "pump" || jsIncludes itemType "pump" then "PUMP"
  else if jsIncludes desc "filling point" || jsIncludes desc "fill point" then "FILLING_POINT"
  else if hasWordToken desc "bv" || jsIncludes desc "ball valve" then "BALL_VALVE"
  else if hasWordToken desc "cv" || jsIncludes desc "check valve" then "CHECK_VALVE"
  else if jsIncludes desc "gate valve" then "GATE_VALVE"
  else if jsIncludes desc "strainer" then "STRAINER"
  else if jsIncludes desc "pipe" || jsIncludes desc "piping" then "PIPE"
  else if jsIncludes desc "flexible" || jsIncludes desc "hose" then "FLEXIBLE_HOSE"
  else if jsIncludes desc "vent" then "VENT"
  else if jsIncludes desc "leak" || jsIncludes desc "sensor" then "SENSOR"
  else if jsIncludes desc "level"
      && (jsIncludes desc "probe" || jsIncludes desc "switch" || jsIncludes desc "indicator") then
    "LEVEL_DEVICE"
  else if jsIncludes desc "control panel" || jsIncludes desc "mcp" then "CONTROL_PANEL"
  else if jsIncludes desc "conduit" || jsIncludes desc "wiring" || jsIncludes desc "cable" then
    "ELECTRICAL"
  else "OTHER"

/-! ## Comparison Engine (openai comparator, `comparePreExtractedLists`)

Only the post-response part of the function is embedded: the OpenAI call
is abstracted to the `content` argument (`response.choices?.[0]?.message?.content`,
`none` = absent).  The transport-failure catch branch and the raw-content
plumbing both yield zero rows / diagnostics and carry no row data, so the
row-level claims are settled on this embedding. -/

structure ComparisonRow where
  drawing_item : Option ExtractedItem
  boq_item : Option ExtractedItem
  status : Json
  note : Json

/-- `tryParseJson` wraps a bare JSON array as `{comparisons: [...]}`. -/
def wrapIfArray (v : Json) : Json :=
  match v with
  | .arr xs => .obj [("comparisons", .arr xs)]
  | _ => v

/-- `tryParseJson` (comparator lines 33-54): strict parse, then the first
`{...}` span, then `{}`. -/
def tryParseJson (content : String) : Json :=
  match jsonParse content with
  | some v => wrapIfArray v
  | none =>
    match braceSpan content with
    | some span =>
      match jsonParse span with
      | some v => wrapIfArray v
      | none => .obj []
    | none => .obj []

/-- `parsed.comparisons ?? parsed.matches ?? parsed.result ?? []`;
reading a property of `null` throws (modelled as `Except.error`). -/
def rawComparisonsOf (content : String) : Except Unit Json :=
  match tryParseJson content with
  | .null => .error ()
  | parsed =>
    match
      jsCoalesce (jsCoalesce (parsed.getProp? "comparisons") (parsed.getProp? "matches"))
        (parsed.getProp? "result") with
    | none => .ok (.arr [])
    | some .null => .ok (.arr [])
    | some v => .ok v

/-- `.map` on a non-array value throws a `TypeError`. -/
def comparisonEntries (content : String) : Except Unit (List Json) :=
  match rawComparisonsOf content with
  | .error e => .error e
  | .ok (.arr xs) => .ok xs
  | .ok _ => .error ()

/-- Canonical array-index string, for JS bracket indexing with a string
key (`arr["1"]` hits index 1, `arr["01"]` does not). -/
def jsCanonNat? (s : String) : Option Nat :=
  let ds := s.data
  if ds ≠ [] ∧ ds.all isDigit ∧ (ds.length = 1 ∨ ds.headD 'x' ≠ '0') then
    some (digitsToNat ds)
  else none

/-- JS array indexing `items[idx]` with an arbitrary JSON value as index:
`undefined` (`none`) unless the index is an in-range integer (or its
canonical string form). -/
def jsArrGet (items : List α) (idx : Json) : Option α :=
  match idx with
  | .num q => if q.den = 1 ∧ 0 ≤ q.num then items.get? q.num.toNat else none
  | .str s =>
    match jsCanonNat? s with
    | some n => items.get? n
    | none => none
  | _ => none

/-- `comp.drawing_idx ?? comp.drawing_index` (and the boq analogue). -/
def entryIdxVal (comp : Json) (k1 k2 : String) : Option Json :=
  jsCoalesce (comp.getProp? k1) (comp.getProp? k2)

/-- `idx !== null && idx !== undefined ? items[idx] : null` — note the
absence of any bounds check: an out-of-range index yields `undefined`. -/
def entryItem (items : List ExtractedItem) (idxVal : Option Json) : Option ExtractedItem :=
  match idxVal with
  | none => none
  | some .null => none
  | some v => jsArrGet items v

/-- `comp.status || "no_match"`. -/
def entryStatus (comp : Json) : Json :=
  match comp.getProp? "status" with
  | some v => if jsTruthy v then v else .str "no_match"
  | none => .str "no_match"

/-- `comp.note || ""`. -/
def entryNote (comp : Json) : Json :=
  match comp.getProp? "note" with
  | some v => if jsTruthy v then v else .str ""
  | none => .str ""

/-- One step of the `rawComparisons.map(...)` callback; reading a
property of a `null` element throws. -/
def rowOfComp (drawingItems boqItems : List ExtractedItem) (comp : Json) :
    Except Unit ComparisonRow :=
  match comp with
  | .null => .error ()
  | _ =>
    .ok
      { drawing_item := entryItem drawingItems (entryIdxVal comp "drawing_idx" "drawing_index")
        boq_item := entryItem boqItems (entryIdxVal comp "boq_idx" "boq_index")
        status := entryStatus comp
        note := entryNote comp }

/-- `Array.prototype.map` with a throwing callback. -/
def exceptMapList (f : α → Except Unit β) : List α → Except Unit (List β)
  | [] => .ok []
  | x :: xs =>
    match f x with
    | .error e => .error e
    | .ok r =>
      match exceptMapList f xs with
      | .error e => .error e
      | .ok rs => .ok (r :: rs)

/-- `comparePreExtractedLists` (comparator lines 208-348), reduced to the
returned `comparisons` array.  Any exception inside the `try` block
(including a `TypeError` from the index-mapping code) is caught and
yields zero rows. -/
def comparePreExtractedLists (drawingItems boqItems : List ExtractedItem)
    (content : Option String) : List ComparisonRow :=
  match content with
  | none => []
  | some c =>
    if c = "" then []
    else
      match comparisonEntries c with
      | .error _ => []
      | .ok entries =>
        match exceptMapList (rowOfComp drawingItems boqItems) entries with
        | .error _ => []
        | .ok rows => rows

/-! ## Price Mapping Engine (priceMapper.ts, `parseMappings` and
`mapItemsToPriceList`)

The price list is an opaque ordered sequence of rows (type parameter);
the oracle call and prompt construction are abstracted to the `content`
argument (the response text). -/

/-- A mapping entry that survived `parseMappings`' filter: both indices
are JS numbers (`Rat` here) and non-negative; the remaining fields are
copied verbatim from the oracle entry (`none` = absent/`undefined`). -/
structure PriceMappingNum where
  item_index : Rat
  price_list_index : Rat
  unit_price : Option Json
  unit_manhour : Option Json
  match_reason : Option Json
  note : Option Json

/-- `typeof v === "number"` view of a property read. -/
def jsNumVal : Option Json → Option Rat
  | some (.num q) => some q
  | _ => none

/-- The `.map`+`.filter` body of `parseMappings`: reading properties of a
`null` element throws; entries whose two indices are not both
non-negative numbers are dropped. -/
def pmOfJson (m : Json) : Except Unit (Option PriceMappingNum) :=
  if jsIsNull m then .error ()
  else
    match jsNumVal (m.getProp? "item_index"), jsNumVal (m.getProp? "price_list_index") with
    | some qi, some qp =>
      if 0 ≤ qi ∧ 0 ≤ qp then
        .ok (some
          { item_index := qi, price_list_index := qp,
            unit_price := m.getProp? "unit_price",
            unit_manhour := m.getProp? "unit_manhour",
            match_reason := m.getProp? "match_reason",
            note := m.getProp? "note" })
      else .ok none
    | _, _ => .ok none

def exceptFilterMapList (f : α → Except Unit (Option β)) : List α → Except Unit (List β)
  | [] => .ok []
  | x :: xs =>
    match f x with
    | .error e => .error e
    | .ok o =>
      match exceptFilterMapList f xs with
      | .error e => .error e
      | .ok rs =>
        .ok
          (match o with
           | some r => r :: rs
           | none => rs)

/-- `Array.isArray(parsed) ? {mappings: parsed} : parsed && typeof parsed
=== "object" ? parsed : {}`. -/
def pmPayload (parsed : Json) : Json :=
  match parsed with
  | .arr xs => .obj [("mappings", .arr xs)]
  | .obj fs => .obj fs
  | _ => .obj []

/-- The inner `tryParse` of `parseMappings`: every exception (parse error
or `TypeError` during the map) is caught and yields `[]`. -/
def pmTryParse (text : String) : List PriceMappingNum :=
  match jsonParse text with
  | none => []
  | some parsed =>
    match (pmPayload parsed).getProp? "mappings" with
    | some (.arr ms) =>
      match exceptFilterMapList pmOfJson ms with
      | .ok rs => rs
      | .error _ => []
    | _ => []

/-- `parseMappings` (priceMapper.ts lines 20-61): direct parse first,
then the first `{...}` span, else `[]`. -/
def parseMappings (content : String) : List PriceMappingNum :=
  let direct := pmTryParse content
  if direct.length ≠ 0 then direct
  else
    match braceSpan content with
    | some span =>
      let fallback := pmTryParse span
      if fallback.length ≠ 0 then fallback else []
    | none => []

structure PriceMappingOut (α : Type) where
  item_index : Rat
  price_list_index : Rat
  unit_price : Option Json
  unit_manhour : Option Json
  match_reason : Option Json
  note : Option Json
  price_row : Option α

/-- JS indexing `priceList[q]` with a number key: `undefined` unless `q`
is an in-range integer. -/
def ratIndexGet (l : List α) (q : Rat) : Option α :=
  if q.den = 1 ∧ 0 ≤ q.num then l.get? q.num.toNat else none

/-- The bounds-validation loop of `mapItemsToPriceList` (lines 313-323):
entries with `price_list_index >= priceList.length || < 0` are skipped,
accepted entries are enriched with the matched row. -/
def enrichMappings (priceList : List α) : List PriceMappingNum → List (PriceMappingOut α)
  | [] => []
  | m :: ms =>
    if (priceList.length : Rat) ≤ m.price_list_index ∨ m.price_list_index < 0 then
      enrichMappings priceList ms
    else
      { item_index := m.item_index, price_list_index := m.price_list_index,
        unit_price := m.unit_price, unit_manhour := m.unit_manhour,
        match_reason := m.match_reason, note := m.note,
        price_row := ratIndexGet priceList m.price_list_index } :: enrichMappings priceList ms

/-- `mapItemsToPriceList` (lines 269-328) from the response content on:
parse, validate bounds, enrich; the raw response text is returned to the
caller unchanged. -/
def mapItemsToPriceList (priceList : List α) (content : String) :
    List (PriceMappingOut α) × String :=
  (enrichMappings priceList (parseMappings content), content)

/-! ## Extraction Orchestrator (parsing/openaiExtractor) -/

/-- Decimal digits of the fractional part of a non-negative rational
(terminates within the fuel for every number produced by `jsonParse`,
whose denominator divides a power of ten). -/
def jsNumFracDigits : Nat → Rat → List Char
  | 0, _ => []
  | fuel+1, r =>
    if r = 0 then []
    else
      let r10 := r * 10
      let d := r10.floor
      Char.ofNat (48 + d.toNat) :: jsNumFracDigits fuel (r10 - (d : Rat))

/-- `String(n)` / `Number.prototype.toString` for the finite decimal
numbers produced by `jsonParse` (exponential display of extreme
magnitudes is not modelled; no analysed value reaches it). -/
def jsNumToString (q : Rat) : String :=
  if q.den = 1 then toString q.num
  else
    let sign := if q < 0 then "-" else ""
    let a := if q < 0 then -q else q
    sign ++ toString a.floor.toNat ++ "." ++ (⟨jsNumFracDigits 40 (a - (a.floor : Rat))⟩ : String)

/-- `String(value)` coercion: arrays join their elements with `","`
(`null` elements become empty), plain objects print `[object Object]`. -/
def jsStringOf : Json → String
  | .null => "null"
  | .bool b => if b then "true" else "false"
  | .num q => jsNumToString q
  | .str s => s
  | .obj _ => "[object Object]"
  | .arr xs =>
    String.intercalate ","
      (xs.attach.map (fun x => if jsIsNull x.1 then "" else jsStringOf x.1))
decreasing_by
  have := List.sizeOf_lt_of_mem x.2
  simp only [Json.arr.sizeOf_spec]
  omega

/-- `toOptionalString` (openaiExtractor lines 220-230): `none` is
`undefined`; numbers are stringified (all finite in this model), strings
are trimmed and empty results dropped, other values go through
`String(value)`. -/
def toOptionalString (value : Option Json) : Option String :=
  match value with
  | none => none
  | some .null => none
  | some (.num q) => some (jsNumToString q)
  | some (.str s) => if jsTrim s = "" then none else some (jsTrim s)
  | some v => some (jsStringOf v)

/-- `a ?? b` on already-coerced optional strings. -/
def oOr (a b : Option String) : Option String :=
  match a with
  | some v => some v
  | none => b

/-- The per-record constructor inside `toItemsArray` (lines 242-285);
`record` is a plain JSON object. -/
def recordToItem (record : Json) : ExtractedItem :=
  let sectionCode :=
    oOr (toOptionalString (record.getProp? "section_code"))
      (oOr (toOptionalString (record.getProp? "sectionCode"))
        (toOptionalString (record.getProp? "section")))
  let itemNo :=
    oOr (toOptionalString (record.getProp? "item_no"))
      (oOr (toOptionalString (record.getProp? "itemNo"))
        (toOptionalString (record.getProp? "item_number")))
  let dimensions :=
    oOr (toOptionalString (record.getProp? "dimensions"))
      (toOptionalString (record.getProp? "size"))
  let dimensionsReason :=
    oOr (toOptionalString (record.getProp? "dimensions_reason"))
      (oOr (toOptionalString (record.getProp? "dimensionsReason"))
        (oOr (toOptionalString (record.getProp? "dimension_reason"))
          (oOr (toOptionalString (record.getProp? "dimensionReasoning"))
            (toOptionalString (record.getProp? "dimension_reasoning")))))
  let finishes :=
    oOr (toOptionalString (record.getProp? "finishes"))
      (toOptionalString (record.getProp? "finish"))
  let unit :=
    toOptionalString (jsCoalesce (record.getProp? "unit") (record.getProp? "uom"))
  { section_code := sectionCode
    section_name :=
      toOptionalString (jsCoalesce (record.getProp? "section_name") (record.getProp? "sectionName"))
    item_no := itemNo
    item_number := oOr itemNo (toOptionalString (record.getProp? "item_number"))
    item_type := toOptionalString (record.getProp? "item_type")
    description := toOptionalString (record.getProp? "description")
    capacity := toOptionalString (record.getProp? "capacity")
    dimensions := dimensions
    dimensions_reason := oOr dimensionsReason (toOptionalString (record.getProp? "remarks"))
    size := oOr dimensions (toOptionalString (record.getProp? "size"))
    quantity := toOptionalString (record.getProp? "quantity")
    finishes := finishes
    unit := unit
    remarks := toOptionalString (record.getProp? "remarks")
    unit_price := toOptionalString (record.getProp? "unit_price")
    total_price := toOptionalString (record.getProp? "total_price")
    location := toOptionalString (record.getProp? "location")
    unit_manhour := toOptionalString (record.getProp? "unit_manhour")
    total_manhour := toOptionalString (record.getProp? "total_manhour")
    full_description :=
      toOptionalString
        (jsCoalesce (record.getProp? "full_description") (finishes.map Json.str)) }

def Json.isObjRecord : Json → Bool
  | .obj _ => true
  | _ => false

/-- `toItemsArray` (openaiExtractor lines 232-287): accept a bare array
or an object carrying an `items` key; keep only plain-record elements. -/
def toItemsArray (payload : Json) : List ExtractedItem :=
  let itemsVal : Option Json :=
    match payload with
    | .arr xs => some (.arr xs)
    | .obj fs =>
      if fs.any (fun p => p.1 = "items") then some ((Json.obj fs).getProp? "items" |>.getD .null)
      else none
    | _ => none
  match itemsVal with
  | some (.arr xs) => (xs.filter Json.isObjRecord).map recordToItem
  | _ => []

/-- `parseJsonFromMessage` (lines 210-218): first `[...]` span, else
first `{...}` span, else throw; `JSON.parse` of the span may throw. -/
def parseJsonFromMessage (message : String) : Except String Json :=
  match (bracketSpan message).orElse (fun _ => braceSpan message) with
  | none => .error "OpenAI response did not include JSON"
  | some span =>
    match jsonParse span with
    | some v => .ok v
    | none => .error "Unexpected token in JSON"

def DRAWING_CATEGORIES : List (String × String) :=
  [("flooring", "Flooring"), ("walls_and_ceiling", "Wall Structure & Ceiling"),
   ("custom_items", "Custom-made Items"), ("graphics", "Graphics"),
   ("furniture", "Furniture"), ("av", "AV")]

/-- Outcome of one settled category promise (`Promise.allSettled`). -/
inductive SettledResult where
  | fulfilled (items : List ExtractedItem) (rawContent : String)
  | rejected (reason : String)
deriving DecidableEq

def SettledResult.itemsOf : SettledResult → List ExtractedItem
  | .fulfilled items _ => items
  | .rejected _ => []

def SettledResult.isRejected : SettledResult → Bool
  | .fulfilled _ _ => false
  | .rejected _ => true

/-- `response.choices?.[0]` of one category call: message content and
out-of-band finish reason. -/
structure ChatChoice where
  content : Option String
  finish_reason : Option String

def truncationMsg (label : String) : String :=
  "Category " ++ label ++
    " response was truncated. Consider increasing max_completion_tokens or splitting the document."

/-- The per-category task body of `extractAttributesWithOpenAI`
(lines 344-366): a `length` finish reason throws before any parsing;
otherwise the message is parsed and coerced to items. -/
def openAiCategoryTask (label : String) (choice : Option ChatChoice) : SettledResult :=
  let rawMessage := (choice.bind (fun c => c.content)).getD ""
  let finishReason := choice.bind (fun c => c.finish_reason)
  if finishReason = some "length" then .rejected (truncationMsg label)
  else
    match parseJsonFromMessage rawMessage with
    | .error msg => .rejected msg
    | .ok payload => .fulfilled (toItemsArray payload) rawMessage

/-- One Gemini category response: the text read by the code and the
finish reason the service reports out of band (present in the SDK
response object but never consulted by this task body, lines 450-468). -/
structure GeminiResponse where
  text : Option String
  finishReason : Option String

/-- The per-category task body of `extractAttributesFromPdfWithGemini`
(lines 450-468): parses `result.response.text()` directly — there is no
finish-reason check on this path. -/
def geminiCategoryTask (resp : GeminiResponse) : SettledResult :=
  let rawMessage := resp.text.getD ""
  match parseJsonFromMessage rawMessage with
  | .error msg => .rejected msg
  | .ok payload => .fulfilled (toItemsArray payload) rawMessage

/-- The `categoryResponses.forEach` aggregation (lines 381-389):
fulfilled categories append their items in category-declaration order,
rejected ones contribute one label-prefixed error string. -/
def aggregateSettled : List (String × String) → List SettledResult → List ExtractedItem × List String
  | _, [] => ([], [])
  | [], _ :: _ => ([], [])
  | c :: cats, r :: rs =>
    let rest := aggregateSettled cats rs
    match r with
    | .fulfilled items _ => (items ++ rest.1, rest.2)
    | .rejected msg => (rest.1, (c.2 ++ ": " ++ msg) :: rest.2)

/-- The settled outcomes of the six concurrent category calls; `svc`
abstracts one network exchange per category key (`Except.error` = the
call itself threw). -/
def openAiCategoryTasks (svc : String → Except String (Option ChatChoice)) :
    List SettledResult :=
  DRAWING_CATEGORIES.map (fun c =>
    match svc c.1 with
    | .error e => .rejected e
    | .ok choice => openAiCategoryTask c.2 choice)

/-- `extractAttributesWithOpenAI` (lines 317-395), reduced to the
`(items, errors)` pair (the attribute map and raw-content bundle are
derived views of the same data). -/
def extractAttributesWithOpenAI (svc : String → Except String (Option ChatChoice)) :
    List ExtractedItem × List String :=
  aggregateSettled DRAWING_CATEGORIES (openAiCategoryTasks svc)

def geminiCategoryTasks (svc : String → Except String GeminiResponse) : List SettledResult :=
  DRAWING_CATEGORIES.map (fun c =>
    match svc c.1 with
    | .error e => .rejected e
    | .ok resp => geminiCategoryTask resp)

/-- `extractAttributesFromPdfWithGemini` (lines 406-497), reduced to the
`(items, errors)` pair. -/
def extractAttributesFromPdfWithGemini (svc : String → Except String GeminiResponse) :
    List ExtractedItem × List String :=
  aggregateSettled DRAWING_CATEGORIES (geminiCategoryTasks svc)

/-! ## Specification-side definitions

These restate conditions in the specification's own vocabulary,
independently of the code embedding above; the theorems below connect
the two. -/

/-- The category keyword rules in the declared priority order of §4.1 /
claim C7 (STORAGE_TANK, DAY_TANK, PUMP, FILLING_POINT, BALL_VALVE,
CHECK_VALVE, GATE_VALVE, STRAINER, PIPE, FLEXIBLE_HOSE, VENT, SENSOR,
LEVEL_DEVICE, CONTROL_PANEL, ELECTRICAL), each a predicate over the
lower-cased description and item type. -/
def categoryRules : List (String × (String → String → Bool)) :=
  [("STORAGE_TANK", fun desc ty => jsIncludes desc "storage tank" || jsIncludes ty "storage tank"),
   ("DAY_TANK", fun desc ty => jsIncludes desc "day tank" || jsIncludes ty "day tank"),
   ("PUMP", fun desc ty => jsIncludes desc "pump" || jsIncludes ty "pump"),
   ("FILLING_POINT", fun desc _ => jsIncludes desc "filling point" || jsIncludes desc "fill point"),
   ("BALL_VALVE", fun desc _ => hasWordToken desc "bv" || jsIncludes desc "ball valve"),
   ("CHECK_VALVE", fun desc _ => hasWordToken desc "cv" || jsIncludes desc "check valve"),
   ("GATE_VALVE", fun desc _ => jsIncludes desc "gate valve"),
   ("STRAINER", fun desc _ => jsIncludes desc "strainer"),
   ("PIPE", fun desc _ => jsIncludes desc "pipe" || jsIncludes desc "piping"),
   ("FLEXIBLE_HOSE", fun desc _ => jsIncludes desc "flexible" || jsIncludes desc "hose"),
   ("VENT", fun desc _ => jsIncludes desc "vent"),
   ("SENSOR", fun desc _ => jsIncludes desc "leak" || jsIncludes desc "sensor"),
   ("LEVEL_DEVICE", fun desc _ =>
     jsIncludes desc "level"
       && (jsIncludes desc "probe" || jsIncludes desc "switch" || jsIncludes desc "indicator")),
   ("CONTROL_PANEL", fun desc _ => jsIncludes desc "control panel" || jsIncludes desc "mcp"),
   ("ELECTRICAL", fun desc _ =>
     jsIncludes desc "conduit" || jsIncludes desc "wiring" || jsIncludes desc "cable")]

/-- First-match-wins evaluation over an ordered rule list, defaulting to
`OTHER` — the evaluation strategy the specification prescribes. -/
def firstMatchCategory : List (String × (String → String → Bool)) → String → String → String
  | [], _, _ => "OTHER"
  | (name, p) :: rs, desc, ty =>
    if p desc ty then name else firstMatchCategory rs desc ty

/-- Membership in the closed six-value comparison status enumeration. -/
def statusValid (j : Json) : Bool :=
  j.isStr "match_exact" || j.isStr "match_quantity_diff" || j.isStr "match_unit_diff" ||
    j.isStr "missing_in_boq" || j.isStr "missing_in_drawing" || j.isStr "no_match"

/-- The oracle comparison entries a given response resolves to (empty
whenever the engine would return zero rows before the index-mapping
step). -/
def oracleEntries (content : Option String) : List Json :=
  match content with
  | none => []
  | some c =>
    if c = "" then []
    else
      match comparisonEntries c with
      | .ok xs => xs
      | .error _ => []

/-- A well-formed oracle comparison entry relative to the two item
lists: its status (if truthy) is drawn from the six-value enumeration,
and at least one of its indices resolves to an item. -/
def entryWellFormed (dItems bItems : List ExtractedItem) (comp : Json) : Bool :=
  (match comp.getProp? "status" with
   | some v => !jsTruthy v || statusValid v
   | none => true)
  && ((entryItem dItems (entryIdxVal comp "drawing_idx" "drawing_index")).isSome
      || (entryItem bItems (entryIdxVal comp "boq_idx" "boq_index")).isSome)

/-- "No rule matches" for `normalizeSize`: no `mm` token, no inch-marked
pattern resolving through the table, no bare numeric in the table. -/
abbrev noSizeRuleMatches (s : String) : Prop :=
  mmFind (jsTrim (jsToLower s)).data = none
    ∧ inchResolve (jsTrim (jsToLower s)).data = none
    ∧ ((bareNumFind s).bind (fun cap => inchTableGet ⟨cap⟩)) = none

/-- The size strings accepted by the inch-to-mm lookup table: those that
`normalizeSize` resolves through `INCH_TO_MM` (not via the `mm`
fast path), together with the millimetre value. -/
def sizeTableResolved (s : String) : Option Nat :=
  if s = "" then none
  else
    match mmFind (jsTrim (jsToLower s)).data with
    | some _ => none
    | none =>
      match inchResolve (jsTrim (jsToLower s)).data with
      | some mm => some mm
      | none => (bareNumFind s).bind (fun cap => inchTableGet ⟨cap⟩)

/-- "Parseable as JSON containing a mappings array" for the price
mapping engine's response text. -/
def hasMappingsArray (text : String) : Bool :=
  match jsonParse text with
  | none => false
  | some parsed =>
    match (pmPayload parsed).getProp? "mappings" with
    | some (.arr _) => true
    | _ => false

/-! ## Helper lemmas -/

theorem assocGet_mem_snd {l : List (String × Nat)} {k : String} {mm : Nat}
    (h : assocGet l k = some mm) : mm ∈ l.map Prod.snd := by
  induction l with
  | nil => simp [assocGet] at h
  | cons p rest ih =>
    obtain ⟨a, b⟩ := p
    by_cases hk : k = a
    · simp only [assocGet, hk, if_pos] at h
      simp only [Option.some.injEq] at h
      simp [h]
    · simp only [assocGet, hk, if_neg, ite_false] at h
      simp [ih h]

theorem inchResolve_from_table {l : List Char} {mm : Nat}
    (h : inchResolve l = some mm) : ∃ k, inchTableGet k = some mm := by
  unfold inchResolve at h
  cases hp1 : pat1Find l with
  | none =>
    simp only [hp1] at h
    cases hp2 : pat2Find l with
    | none => simp [hp2] at h
    | some cap2 =>
      simp only [hp2] at h
      exact ⟨_, h⟩
  | some cap =>
    simp only [hp1] at h
    cases ht : inchLookup cap with
    | some mm2 =>
      simp only [ht, Option.some.injEq] at h
      exact ⟨_, h ▸ ht⟩
    | none =>
      simp only [ht] at h
      cases hp2 : pat2Find l with
      | none => simp [hp2] at h
      | some cap2 =>
        simp only [hp2] at h
        exact ⟨_, h⟩

theorem sizeTableResolved_normalize {s : String} {mm : Nat}
    (h : sizeTableResolved s = some mm) :
    normalizeSize (some s) = toString mm ++ "mm" ∧ ∃ k, inchTableGet k = some mm := by
  unfold sizeTableResolved at h
  by_cases hs : s = ""
  · rw [if_pos hs] at h; exact absurd h (by simp)
  · rw [if_neg hs] at h
    cases h1 : mmFind (jsTrim (jsToLower s)).data with
    | some ds => rw [h1] at h; exact absurd h (by simp)
    | none =>
      rw [h1] at h
      cases h2 : inchResolve (jsTrim (jsToLower s)).data with
      | some mm2 =>
        rw [h2] at h
        simp only [Option.some.injEq] at h
        subst h
        refine ⟨?_, inchResolve_from_table h2⟩
        simp only [normalizeSize]
        rw [if_neg hs, h1, h2]
      | none =>
        rw [h2] at h
        cases hb : bareNumFind s with
        | none => rw [hb] at h; exact absurd h (by simp)
        | some cap =>
          rw [hb] at h
          simp only [Option.some_bind] at h
          refine ⟨?_, ⟨_, h⟩⟩
          simp only [normalizeSize, if_neg hs, h1, h2, hb, h]

/-! ## Claim theorems: Unit Normalizer -/

/-- C4 (code bug): the claim — and the source's own comment
"Handle various inch formats: 3\", Ø3\", 3 inch, 3in, DN3" — say a bare
`3"` resolves through the table to `80mm`; in fact the inch regex ends in
`(?:"|''|inch|in)\b`, and after a closing quote at the end of the input
neither neighbour is a word character, so `\b` fails and `normalizeSize`
returns `3"` unchanged even though the table maps `3` to 80. -/
theorem normalizeSize_trailing_quote_unresolved :
    normalizeSize (some "3\"") = "3\"" ∧ inchTableGet "3" = some 80 := by
  constructor
  · decide
  · decide

/-- C7: `categorizeItem` equals first-match-wins evaluation of the fixed
keyword rule list in the declared priority order; it is deterministic
(a function of the resolved description and the item type); and a
description containing both "check valve" and "ball valve" resolves to
`BALL_VALVE`, the earlier entry in the declared priority. -/
theorem categorizeItem_respects_priority :
    (∀ item : ExtractedItem,
        categorizeItem item
          = firstMatchCategory categoryRules (jsToLower (itemDesc item))
              (jsToLower ((item.item_type).getD "")))
      ∧ (∀ i1 i2 : ExtractedItem,
          itemDesc i1 = itemDesc i2 → i1.item_type = i2.item_type →
            categorizeItem i1 = categorizeItem i2)
      ∧ categorizeItem { description := some "Fuel check valve ball valve assembly" }
          = "BALL_VALVE" := by
  refine ⟨fun item => rfl, fun i1 i2 h1 h2 => ?_, by decide⟩
  simp only [categorizeItem, h1, h2]

/-- C7 witness: the determinism conjunct applied to two concrete items
with the same resolved description and item type. -/
theorem categorizeItem_respects_priority_witness :
    categorizeItem { description := some "ball valve" }
      = categorizeItem { full_description := some "ball valve" } :=
  categorizeItem_respects_priority.2.1 _ _ (by decide) (by decide)

/-- C8: `normalizeSize` is total (every input, including `undefined` and
the empty string, yields a string — it is a Lean function, so it cannot
throw) and returns its input unchanged whenever none of its rules
matches. -/
theorem normalizeSize_total_and_identity_on_unmatched :
    normalizeSize none = "" ∧ normalizeSize (some "") = ""
      ∧ ∀ s : String, noSizeRuleMatches s → normalizeSize (some s) = s := by
  refine ⟨rfl, rfl, fun s h => ?_⟩
  obtain ⟨h1, h2, h3⟩ := h
  by_cases hs : s = ""
  · subst hs; rfl
  · cases hb : bareNumFind s with
    | none => simp only [normalizeSize, if_neg hs, h1, h2, hb]
    | some cap =>
      rw [hb] at h3
      simp only [Option.some_bind] at h3
      simp only [normalizeSize, if_neg hs, h1, h2, hb, h3]

/-- C8 witness. -/
theorem normalizeSize_total_and_identity_on_unmatched_witness :
    noSizeRuleMatches "large bore" ∧ normalizeSize (some "large bore") = "large bore" :=
  ⟨by decide, normalizeSize_total_and_identity_on_unmatched.2.2 "large bore" (by decide)⟩

/-- C9: `normalizeSize` is idempotent on every size string accepted by
the inch-to-mm lookup table: such a string normalizes to `<mm>mm`, and
every table output re-normalizes to itself through the `mm` fast path. -/
theorem normalizeSize_idempotent_on_table_accepted :
    ∀ s : String, (sizeTableResolved s).isSome →
      normalizeSize (some (normalizeSize (some s))) = normalizeSize (some s) := by
  intro s hsome
  obtain ⟨mm, hmm⟩ := Option.isSome_iff_exists.mp hsome
  obtain ⟨hn, k, hk⟩ := sizeTableResolved_normalize hmm
  rw [hn]
  have hk' : assocGet INCH_TO_MM k = some mm := hk
  have hvals := assocGet_mem_snd hk'
  simp only [INCH_TO_MM, List.map] at hvals
  fin_cases hvals <;> decide

/-- C9 witness: `DN3` is accepted by the table (→ `80mm`). -/
theorem normalizeSize_idempotent_on_table_accepted_witness :
    (sizeTableResolved "DN3").isSome
      ∧ normalizeSize (some (normalizeSize (some "DN3"))) = normalizeSize (some "DN3") :=
  ⟨by decide, normalizeSize_idempotent_on_table_accepted "DN3" (by decide)⟩

/-! ## Claim theorems: Comparison Engine -/

theorem jsArrGet_mem {α : Type} {items : List α} {idx : Json} {x : α}
    (h : jsArrGet items idx = some x) : x ∈ items := by
  cases idx with
  | num q =>
    simp only [jsArrGet] at h
    split at h
    · exact List.get?_mem h
    · exact absurd h (by simp)
  | str s =>
    simp only [jsArrGet] at h
    cases hc : jsCanonNat? s with
    | none => rw [hc] at h; exact absurd h (by simp)
    | some n => rw [hc] at h; exact List.get?_mem h
  | null => simp [jsArrGet] at h
  | bool b => simp [jsArrGet] at h
  | arr xs => simp [jsArrGet] at h
  | obj fs => simp [jsArrGet] at h

theorem entryItem_mem {items : List ExtractedItem} {iv : Option Json} {x : ExtractedItem}
    (h : entryItem items iv = some x) : x ∈ items := by
  cases iv with
  | none => simp [entryItem] at h
  | some v =>
    cases v with
    | null => simp [entryItem] at h
    | bool b => exact jsArrGet_mem (show jsArrGet items (Json.bool b) = some x from h)
    | num q => exact jsArrGet_mem (show jsArrGet items (Json.num q) = some x from h)
    | str t => exact jsArrGet_mem (show jsArrGet items (Json.str t) = some x from h)
    | arr xs => exact jsArrGet_mem (show jsArrGet items (Json.arr xs) = some x from h)
    | obj fs => exact jsArrGet_mem (show jsArrGet items (Json.obj fs) = some x from h)

theorem exceptMapList_ok_mem {α β : Type} {f : α → Except Unit β} :
    ∀ {xs : List α} {rs : List β}, exceptMapList f xs = .ok rs →
      ∀ r ∈ rs, ∃ x ∈ xs, f x = .ok r := by
  intro xs
  induction xs with
  | nil =>
    intro rs h r hr
    simp only [exceptMapList, Except.ok.injEq] at h
    subst h
    simp at hr
  | cons x xs ih =>
    intro rs h r hr
    simp only [exceptMapList] at h
    cases hf : f x with
    | error e => rw [hf] at h; exact absurd h (by simp)
    | ok b =>
      rw [hf] at h
      cases hrest : exceptMapList f xs with
      | error e => rw [hrest] at h; exact absurd h (by simp)
      | ok bs =>
        rw [hrest] at h
        simp only [Except.ok.injEq] at h
        subst h
        rcases List.mem_cons.mp hr with rfl | hr2
        · exact ⟨x, List.mem_cons_self x xs, hf⟩
        · obtain ⟨y, hy, hfy⟩ := ih hrest r hr2
          exact ⟨y, List.mem_cons_of_mem _ hy, hfy⟩

theorem rowOfComp_ok_fields {dItems bItems : List ExtractedItem} {comp : Json}
    {row : ComparisonRow} (h : rowOfComp dItems bItems comp = .ok row) :
    row.drawing_item = entryItem dItems (entryIdxVal comp "drawing_idx" "drawing_index")
      ∧ row.boq_item = entryItem bItems (entryIdxVal comp "boq_idx" "boq_index")
      ∧ row.status = entryStatus comp := by
  cases comp <;>
    first
      | (simp only [rowOfComp, Except.ok.injEq] at h; subst h; exact ⟨rfl, rfl, rfl⟩)
      | simp [rowOfComp] at h

/-- The rows the engine produces at a given input, when the mapping step
does not throw, are exactly the per-entry images; this lemma packages the
outer control flow of `comparePreExtractedLists`. -/
theorem compare_mem_cases {dItems bItems : List ExtractedItem} {content : Option String}
    {row : ComparisonRow} (hrow : row ∈ comparePreExtractedLists dItems bItems content) :
    ∃ comp ∈ oracleEntries content, rowOfComp dItems bItems comp = .ok row := by
  cases content with
  | none => simp [comparePreExtractedLists] at hrow
  | some c =>
    by_cases hc : c = ""
    · simp [comparePreExtractedLists, hc] at hrow
    · simp only [comparePreExtractedLists, if_neg hc] at hrow
      cases hent : comparisonEntries c with
      | error e => rw [hent] at hrow; simp at hrow
      | ok entries =>
        have hrow2 : row ∈
            (match exceptMapList (rowOfComp dItems bItems) entries with
              | Except.error _ => ([] : List ComparisonRow)
              | Except.ok rows => rows) := by
          rw [hent] at hrow; exact hrow
        cases hmap : exceptMapList (rowOfComp dItems bItems) entries with
        | error e => rw [hmap] at hrow2; simp at hrow2
        | ok rows =>
          rw [hmap] at hrow2
          have hrow3 : row ∈ rows := hrow2
          obtain ⟨comp, hcomp, hok⟩ := exceptMapList_ok_mem hmap row hrow3
          refine ⟨comp, ?_, hok⟩
          simp only [oracleEntries, if_neg hc, hent]
          exact hcomp

/-- C1 counterexample: with three drawing items, one BOQ item and the
oracle entry `drawing_idx: 5, boq_idx: 0, status: match_exact`, the
engine does NOT drop the row — it returns one row whose drawing item is
absent (the out-of-range index resolved to `undefined`) and whose BOQ
item is the original item 0. -/
theorem compare_out_of_range_entry_not_dropped :
    ((comparePreExtractedLists
        [{ description := some "Diesel pump" }, { description := some "Ball valve 2\"" },
          { description := some "Vent" }]
        [{ description := some "Ball valve 2\"" }]
        (some "\x7b\"comparisons\":[\x7b\"drawing_idx\":5,\"boq_idx\":0,\"status\":\"match_exact\"\x7d]\x7d")).map
        (fun r => (r.drawing_item, r.boq_item, r.status.isStr "match_exact")))
      = [(none, some { description := some "Ball valve 2\"" }, true)] := by
  decide

/-- C1 (amended): the engine never fabricates an item — every returned
row's `drawing_item`/`boq_item` is either absent or an element of the
corresponding original array (an out-of-range index resolves to an
absent item; the row itself is kept, as the counterexample shows). -/
theorem compare_rows_reference_only_in_bounds_items :
    ∀ (dItems bItems : List ExtractedItem) (content : Option String),
      ∀ row ∈ comparePreExtractedLists dItems bItems content,
        (row.drawing_item = none ∨ ∃ x ∈ dItems, row.drawing_item = some x)
          ∧ (row.boq_item = none ∨ ∃ x ∈ bItems, row.boq_item = some x) := by
  intro dItems bItems content row hrow
  obtain ⟨comp, _, hok⟩ := compare_mem_cases hrow
  obtain ⟨hd, hb, _⟩ := rowOfComp_ok_fields hok
  constructor
  · cases he : entryItem dItems (entryIdxVal comp "drawing_idx" "drawing_index") with
    | none => exact Or.inl (hd.trans he)
    | some x => exact Or.inr ⟨x, entryItem_mem he, hd.trans he⟩
  · cases he : entryItem bItems (entryIdxVal comp "boq_idx" "boq_index") with
    | none => exact Or.inl (hb.trans he)
    | some x => exact Or.inr ⟨x, entryItem_mem he, hb.trans he⟩

/-- C1 witness: an in-bounds oracle entry resolves to the original
items. -/
theorem compare_rows_reference_only_in_bounds_items_witness :
    (some ({ description := some "Diesel pump" } : ExtractedItem) = none
        ∨ ∃ x ∈ [({ description := some "Diesel pump" } : ExtractedItem)],
            some ({ description := some "Diesel pump" } : ExtractedItem) = some x)
      ∧ (some ({ description := some "Flow meter" } : ExtractedItem) = none
        ∨ ∃ x ∈ [({ description := some "Flow meter" } : ExtractedItem)],
            some ({ description := some "Flow meter" } : ExtractedItem) = some x) :=
  compare_rows_reference_only_in_bounds_items
    [{ description := some "Diesel pump" }] [{ description := some "Flow meter" }]
    (some "\x7b\"comparisons\":[\x7b\"drawing_idx\":0,\"boq_idx\":0,\"status\":\"match_exact\"\x7d]\x7d")
    { drawing_item := some { description := some "Diesel pump" },
      boq_item := some { description := some "Flow meter" },
      status := Json.str "match_exact", note := Json.str "" }
    (by
      rw [show comparePreExtractedLists
            [{ description := some "Diesel pump" }] [{ description := some "Flow meter" }]
            (some "\x7b\"comparisons\":[\x7b\"drawing_idx\":0,\"boq_idx\":0,\"status\":\"match_exact\"\x7d]\x7d")
          = [{ drawing_item := some { description := some "Diesel pump" },
               boq_item := some { description := some "Flow meter" },
               status := Json.str "match_exact", note := Json.str "" }] from rfl]
      exact List.mem_singleton_self _)

/-- C3 counterexample: the oracle entry `{status: "banana"}` (no
indices) yields one returned row whose status is the verbatim string
`banana` — outside the six-value enumeration — and whose drawing and
BOQ items are both absent. -/
theorem compare_invalid_status_and_empty_row_returned :
    ((comparePreExtractedLists [] []
        (some "\x7b\"comparisons\":[\x7b\"status\":\"banana\"\x7d]\x7d")).map
        (fun r => (r.drawing_item, r.boq_item, statusValid r.status, r.status.isStr "banana")))
      = [(none, none, false, true)] := by
  decide

/-- C3 (amended): the engine validates neither the status nor item
presence; `no_match` is substituted only for a falsy status.  Whenever
every oracle entry is well formed — its status (if truthy) is one of the
six enumerated values and at least one index resolves to an item — every
returned row has a status in the enumeration and at least one item
present. -/
theorem compare_rows_valid_under_wellformed_oracle :
    ∀ (dItems bItems : List ExtractedItem) (content : Option String),
      (∀ comp ∈ oracleEntries content, entryWellFormed dItems bItems comp = true) →
      ∀ row ∈ comparePreExtractedLists dItems bItems content,
        statusValid row.status = true
          ∧ (row.drawing_item.isSome = true ∨ row.boq_item.isSome = true) := by
  intro dItems bItems content hwf row hrow
  obtain ⟨comp, hcomp, hok⟩ := compare_mem_cases hrow
  obtain ⟨hd, hb, hs⟩ := rowOfComp_ok_fields hok
  have hw := hwf comp hcomp
  simp only [entryWellFormed, Bool.and_eq_true] at hw
  obtain ⟨hw1, hw2⟩ := hw
  constructor
  · rw [hs]
    cases hst : comp.getProp? "status" with
    | none => simp only [entryStatus, hst]; decide
    | some v =>
      simp only [hst] at hw1
      simp only [entryStatus, hst]
      by_cases ht : jsTruthy v = true
      · rw [if_pos ht]
        simpa [ht] using hw1
      · rw [if_neg ht]
        decide
  · rw [hd, hb]
    simpa [Bool.or_eq_true] using hw2

/-- C3 witness: a well-formed oracle response (status from the
enumeration, in-range drawing index). -/
theorem compare_rows_valid_under_wellformed_oracle_witness :
    statusValid (Json.str "missing_in_boq") = true
      ∧ ((some ({ description := some "Diesel pump" } : ExtractedItem)).isSome = true
          ∨ (none : Option ExtractedItem).isSome = true) :=
  compare_rows_valid_under_wellformed_oracle
    [{ description := some "Diesel pump" }] []
    (some "\x7b\"comparisons\":[\x7b\"drawing_idx\":0,\"status\":\"missing_in_boq\"\x7d]\x7d")
    (by decide)
    { drawing_item := some { description := some "Diesel pump" },
      boq_item := none, status := Json.str "missing_in_boq", note := Json.str "" }
    (by
      rw [show comparePreExtractedLists
            [{ description := some "Diesel pump" }] []
            (some "\x7b\"comparisons\":[\x7b\"drawing_idx\":0,\"status\":\"missing_in_boq\"\x7d]\x7d")
          = [{ drawing_item := some { description := some "Diesel pump" },
               boq_item := none, status := Json.str "missing_in_boq", note := Json.str "" }] from rfl]
      exact List.mem_singleton_self _)

/-! ## Claim theorems: Price Mapping Engine -/

theorem exceptFilterMapList_ok_mem {α β : Type} {f : α → Except Unit (Option β)} :
    ∀ {xs : List α} {rs : List β}, exceptFilterMapList f xs = .ok rs →
      ∀ r ∈ rs, ∃ x ∈ xs, f x = .ok (some r) := by
  intro xs
  induction xs with
  | nil =>
    intro rs h r hr
    simp only [exceptFilterMapList, Except.ok.injEq] at h
    subst h
    simp at hr
  | cons x xs ih =>
    intro rs h r hr
    simp only [exceptFilterMapList] at h
    cases hf : f x with
    | error e => rw [hf] at h; exact absurd h (by simp)
    | ok o =>
      rw [hf] at h
      cases hrest : exceptFilterMapList f xs with
      | error e => rw [hrest] at h; exact absurd h (by simp)
      | ok bs =>
        rw [hrest] at h
        cases o with
        | some b =>
          simp only [Except.ok.injEq] at h
          subst h
          rcases List.mem_cons.mp hr with rfl | hr2
          · exact ⟨x, List.mem_cons_self x xs, hf⟩
          · obtain ⟨y, hy, hfy⟩ := ih hrest r hr2
            exact ⟨y, List.mem_cons_of_mem _ hy, hfy⟩
        | none =>
          simp only [Except.ok.injEq] at h
          subst h
          obtain ⟨y, hy, hfy⟩ := ih hrest r hr
          exact ⟨y, List.mem_cons_of_mem _ hy, hfy⟩

theorem pmOfJson_ok_some {m : Json} {r : PriceMappingNum}
    (h : pmOfJson m = .ok (some r)) :
    0 ≤ r.item_index ∧ 0 ≤ r.price_list_index := by
  unfold pmOfJson at h
  split at h
  · exact absurd h (by simp)
  · cases h1 : jsNumVal (m.getProp? "item_index") with
    | none => simp only [h1] at h; simp at h
    | some qi =>
      cases h2 : jsNumVal (m.getProp? "price_list_index") with
      | none => simp only [h1, h2] at h; simp at h
      | some qp =>
        simp only [h1, h2] at h
        split at h
        case isTrue hcond =>
          simp only [Except.ok.injEq, Option.some.injEq] at h
          subst h
          exact hcond
        case isFalse => simp at h

theorem pmTryParse_mem_nonneg {text : String} {r : PriceMappingNum}
    (hr : r ∈ pmTryParse text) : 0 ≤ r.item_index ∧ 0 ≤ r.price_list_index := by
  unfold pmTryParse at hr
  cases hp : jsonParse text with
  | none => rw [hp] at hr; simp at hr
  | some parsed =>
    have hr2 : r ∈
        (match (pmPayload parsed).getProp? "mappings" with
          | some (.arr ms) =>
            (match exceptFilterMapList pmOfJson ms with
              | Except.ok rs => rs
              | Except.error _ => ([] : List PriceMappingNum))
          | _ => ([] : List PriceMappingNum)) := by
      rw [hp] at hr; exact hr
    cases hmp : (pmPayload parsed).getProp? "mappings" with
    | none => rw [hmp] at hr2; simp at hr2
    | some v =>
      cases v with
      | arr ms =>
        have hr3 : r ∈
            (match exceptFilterMapList pmOfJson ms with
              | Except.ok rs => rs
              | Except.error _ => ([] : List PriceMappingNum)) := by
          rw [hmp] at hr2; exact hr2
        cases hfm : exceptFilterMapList pmOfJson ms with
        | error e => rw [hfm] at hr3; simp at hr3
        | ok rs =>
          rw [hfm] at hr3
          have hr4 : r ∈ rs := hr3
          obtain ⟨x, hx, hok⟩ := exceptFilterMapList_ok_mem hfm r hr4
          exact pmOfJson_ok_some hok
      | null => rw [hmp] at hr2; simp at hr2
      | bool b => rw [hmp] at hr2; simp at hr2
      | num q => rw [hmp] at hr2; simp at hr2
      | str t => rw [hmp] at hr2; simp at hr2
      | obj fs => rw [hmp] at hr2; simp at hr2

theorem parseMappings_mem_nonneg {content : String} {r : PriceMappingNum}
    (hr : r ∈ parseMappings content) : 0 ≤ r.item_index ∧ 0 ≤ r.price_list_index := by
  simp only [parseMappings] at hr
  split at hr
  · exact pmTryParse_mem_nonneg hr
  · cases hbs : braceSpan content with
    | none => rw [hbs] at hr; simp at hr
    | some span =>
      rw [hbs] at hr
      have hr2 : r ∈ (if (pmTryParse span).length ≠ 0 then pmTryParse span else []) := hr
      split at hr2
      · exact pmTryParse_mem_nonneg hr2
      · simp at hr2

theorem enrichMappings_mem {α : Type} {priceList : List α} {m : PriceMappingOut α} :
    ∀ {ms : List PriceMappingNum}, m ∈ enrichMappings priceList ms →
      ∃ m0 ∈ ms, m.item_index = m0.item_index ∧ m.price_list_index = m0.price_list_index
        ∧ ¬((priceList.length : Rat) ≤ m0.price_list_index ∨ m0.price_list_index < 0) := by
  intro ms
  induction ms with
  | nil => intro h; simp [enrichMappings] at h
  | cons m0 ms ih =>
    intro h
    simp only [enrichMappings] at h
    split at h
    case isTrue hcond =>
      obtain ⟨y, hy, h1, h2, h3⟩ := ih h
      exact ⟨y, List.mem_cons_of_mem _ hy, h1, h2, h3⟩
    case isFalse hcond =>
      rcases List.mem_cons.mp h with rfl | h2
      · exact ⟨m0, List.mem_cons_self _ _, rfl, rfl, hcond⟩
      · obtain ⟨y, hy, e1, e2, e3⟩ := ih h2
        exact ⟨y, List.mem_cons_of_mem _ hy, e1, e2, e3⟩

/-- C2 counterexample: the oracle entry
`{item_index: 0, price_list_index: 0.5}` passes both validations
(`typeof === "number"`, non-negative, `0.5 < 1`) and is returned with
the fractional index `1/2` — not an integer. -/
theorem priceMapping_fractional_index_returned :
    ((mapItemsToPriceList ["Ball valve 80mm row"]
        "\x7b\"mappings\":[\x7b\"item_index\":0,\"price_list_index\":0.5\x7d]\x7d").1.map
        (fun m => (m.item_index, m.price_list_index)))
      = [(0, mkRat 1 2)]
    ∧ (mkRat 1 2).den ≠ 1 := by
  constructor
  · decide
  · decide

/-- C2 (amended): the engine validates that both indices are
non-negative *numbers* (not necessarily integers) and that
`price_list_index` is strictly below the price-list length; entries
failing these comparisons are dropped, so every returned mapping
satisfies them. -/
theorem priceMappings_nonneg_in_bounds :
    ∀ (α : Type) (priceList : List α) (content : String),
      ∀ m ∈ (mapItemsToPriceList priceList content).1,
        0 ≤ m.item_index ∧ 0 ≤ m.price_list_index
          ∧ m.price_list_index < (priceList.length : Rat) := by
  intro α priceList content m hm
  have hm' : m ∈ enrichMappings priceList (parseMappings content) := hm
  obtain ⟨m0, hm0, he1, he2, hbound⟩ := enrichMappings_mem hm'
  push_neg at hbound
  obtain ⟨hlt, hge⟩ := hbound
  have hpm := parseMappings_mem_nonneg hm0
  refine ⟨?_, ?_, ?_⟩
  · rw [he1]; exact hpm.1
  · rw [he2]; exact hge
  · rw [he2]; exact hlt

/-- C2 witness: an in-bounds integral entry is returned and satisfies
the amended bounds. -/
theorem priceMappings_nonneg_in_bounds_witness :
    (0 : Rat) ≤ 0 ∧ (0 : Rat) ≤ 0 ∧ (0 : Rat) < ((1 : Nat) : Rat) :=
  priceMappings_nonneg_in_bounds String ["Ball valve 80mm row"]
    "\x7b\"mappings\":[\x7b\"item_index\":0,\"price_list_index\":0\x7d]\x7d"
    { item_index := 0, price_list_index := 0, unit_price := none, unit_manhour := none,
      match_reason := none, note := none, price_row := some "Ball valve 80mm row" }
    (by
      rw [show (mapItemsToPriceList ["Ball valve 80mm row"]
            "\x7b\"mappings\":[\x7b\"item_index\":0,\"price_list_index\":0\x7d]\x7d").1
          = [{ item_index := 0, price_list_index := 0, unit_price := none, unit_manhour := none,
               match_reason := none, note := none,
               price_row := some "Ball valve 80mm row" }] from rfl]
      exact List.mem_singleton_self _)

theorem pmTryParse_empty_of_no_mappings {text : String}
    (h : hasMappingsArray text = false) : pmTryParse text = [] := by
  cases hp : jsonParse text with
  | none => simp only [pmTryParse, hp]
  | some parsed =>
    simp only [hasMappingsArray, hp] at h
    simp only [pmTryParse, hp]
    cases hmp : (pmPayload parsed).getProp? "mappings" with
    | none => simp [hmp]
    | some v =>
      cases v with
      | arr ms => rw [hmp] at h; simp at h
      | null => simp [hmp]
      | bool b => simp [hmp]
      | num q => simp [hmp]
      | str t => simp [hmp]
      | obj fs => simp [hmp]

/-- C10: the price mapping engine's parsing step is total (a Lean
function: it cannot throw); whenever the response is not parseable as
JSON containing a `mappings` array — neither directly nor via the first
`{...}` span — `parseMappings` returns the empty list and
`mapItemsToPriceList` returns zero mappings; the raw response text is
always preserved for the caller. -/
theorem priceMapper_parse_never_throws :
    ∀ (content : String) (α : Type) (priceList : List α),
      (mapItemsToPriceList priceList content).2 = content
        ∧ (hasMappingsArray content = false →
            (∀ span, braceSpan content = some span → hasMappingsArray span = false) →
            parseMappings content = []
              ∧ (mapItemsToPriceList priceList content).1 = []) := by
  intro content α priceList
  refine ⟨rfl, fun h1 h2 => ?_⟩
  have hd : pmTryParse content = [] := pmTryParse_empty_of_no_mappings h1
  have hpm : parseMappings content = [] := by
    cases hbs : braceSpan content with
    | none => simp [parseMappings, hd, hbs]
    | some span =>
      have hf : pmTryParse span = [] := pmTryParse_empty_of_no_mappings (h2 span hbs)
      simp [parseMappings, hd, hbs, hf]
  refine ⟨hpm, ?_⟩
  show enrichMappings priceList (parseMappings content) = []
  rw [hpm]
  rfl

/-- C10 witness: prose without any JSON yields zero mappings and the
preserved raw text. -/
theorem priceMapper_parse_never_throws_witness :
    (mapItemsToPriceList ["Ball valve"] "the model refused to answer").2
        = "the model refused to answer"
      ∧ parseMappings "the model refused to answer" = []
      ∧ (mapItemsToPriceList ["Ball valve"] "the model refused to answer").1 = [] := by
  have hnone : braceSpan "the model refused to answer" = none := by decide
  have h := priceMapper_parse_never_throws "the model refused to answer" String ["Ball valve"]
  have h2 := h.2 (by decide) (fun span hspan => by rw [hnone] at hspan; simp at hspan)
  exact ⟨h.1, h2.1, h2.2⟩

/-! ## Claim theorems: Extraction Orchestrator -/

theorem aggregateSettled_items_errors :
    ∀ (cats : List (String × String)) (rs : List SettledResult),
      cats.length = rs.length →
        (aggregateSettled cats rs).1 = (rs.map SettledResult.itemsOf).flatten
          ∧ (aggregateSettled cats rs).2.length = rs.countP SettledResult.isRejected := by
  intro cats
  induction cats with
  | nil =>
    intro rs h
    cases rs with
    | nil => exact ⟨rfl, rfl⟩
    | cons r rs => simp at h
  | cons c cats ih =>
    intro rs h
    cases rs with
    | nil => simp at h
    | cons r rs =>
      simp only [List.length_cons] at h
      obtain ⟨ih1, ih2⟩ := ih rs (by omega)
      cases r with
      | fulfilled items raw =>
        refine ⟨?_, ?_⟩
        · simp [aggregateSettled, SettledResult.itemsOf, ih1]
        · simp [aggregateSettled, SettledResult.isRejected, ih2, List.countP_cons]
      | rejected msg =>
        refine ⟨?_, ?_⟩
        · simp [aggregateSettled, SettledResult.itemsOf, ih1]
        · simp [aggregateSettled, SettledResult.isRejected, ih2, List.countP_cons]

/-- C5: for every assignment of settled outcomes to the six category
calls, the orchestrator (a total function: no exception escapes) returns
exactly the concatenation, in category-declaration order, of the
fulfilled categories' items — rejected categories contribute zero items
— and exactly one error entry per rejected category (so 4 failures out
of 6 yield `errors.length = 4`, and all-failing yields an empty item
list with a non-empty error list). -/
theorem extractAttributes_settles_partial_failures :
    ∀ svc : String → Except String (Option ChatChoice),
      (extractAttributesWithOpenAI svc).1
          = ((openAiCategoryTasks svc).map SettledResult.itemsOf).flatten
        ∧ (extractAttributesWithOpenAI svc).2.length
          = (openAiCategoryTasks svc).countP SettledResult.isRejected := by
  intro svc
  exact aggregateSettled_items_errors DRAWING_CATEGORIES (openAiCategoryTasks svc)
    (by simp [openAiCategoryTasks])

/-- C6 (amended): in the text-based OpenAI orchestrator a category call
whose response carries the out-of-band finish reason `length` is
rejected with the truncation message before any JSON parsing, so it
contributes zero items and surfaces as a category-scoped error.  (The
PDF/Gemini variant performs no such check — see the counterexample.) -/
theorem openai_truncation_rejected :
    ∀ (label : String) (choice : Option ChatChoice),
      choice.bind (fun c => c.finish_reason) = some "length" →
        openAiCategoryTask label choice = .rejected (truncationMsg label)
          ∧ (openAiCategoryTask label choice).itemsOf = [] := by
  intro label choice h
  have hrej : openAiCategoryTask label choice = .rejected (truncationMsg label) := by
    simp [openAiCategoryTask, h]
  exact ⟨hrej, by rw [hrej]; rfl⟩

/-- C6 witness: a length-truncated OpenAI category response. -/
theorem openai_truncation_rejected_witness :
    openAiCategoryTask "Flooring" (some { content := some "[]", finish_reason := some "length" })
        = .rejected (truncationMsg "Flooring")
      ∧ (openAiCategoryTask "Flooring"
          (some { content := some "[]", finish_reason := some "length" })).itemsOf = [] :=
  openai_truncation_rejected "Flooring"
    (some { content := some "[]", finish_reason := some "length" }) (by decide)

/-- A Gemini category response whose out-of-band finish reason reports
an output-length stop while the visible text is an incomplete item list
whose salvageable prefix still parses. -/
def geminiTruncatedSample : GeminiResponse :=
  { text := some "[\x7b\"description\":\"Raised platform - Rental\"\x7d] more items were cut",
    finishReason := some "MAX_TOKENS" }

/-- C6 counterexample: the PDF/Gemini variant ignores the finish-reason
field entirely: a response that signals truncation out of band is parsed
as a valid result contributing one item and no category error, instead
of being surfaced as a category-scoped error with zero items. -/
theorem gemini_truncated_response_parsed_as_valid :
    geminiTruncatedSample.finishReason = some "MAX_TOKENS"
      ∧ (geminiCategoryTask geminiTruncatedSample).isRejected = false
      ∧ ((geminiCategoryTask geminiTruncatedSample).itemsOf.map (fun i => i.description))
          = [some "Raised platform - Rental"] := by
  refine ⟨rfl, rfl, ?_⟩
  decide

end EstimateAI
